import Mathlib

/-!
Shallow embedding of `src/pymc_bart/tree.py` (classes `Node` and `Tree`).

Modelling conventions:
* `float64` values are modelled as rationals `ℚ`; the IEEE NaN produced by
  `np.mean` of an empty collection is modelled as `none : Option ℚ`.
* numpy arrays and Python lists are modelled as Lean lists.  `np.append`
  returns a fresh array and never mutates its argument; where the source
  discards its result, the embedding binds the result to `_discarded` and
  leaves the original list untouched, exactly as the interpreter does.
* A Python `dict` keyed by `int` is an insertion-ordered association list
  with unique keys: assignment replaces the value in place for an existing
  key and appends a new binding otherwise; iteration follows list order.
* Fallible operations (a `dict` lookup that may raise `KeyError`, fancy
  indexing that may raise `IndexError`, calling a method that does not
  exist on `numpy.ndarray`) return `Option`, `none` being the raised
  exception.
* The recursive traversals are given an explicit fuel parameter; `none`
  of the outer `Option` covers both a missing node and fuel exhaustion,
  and fuel-independence for sufficient fuel expresses termination.
-/

namespace PyMCBart

/-- `Node` of `tree.py`: `index : int64`, `value : float64`,
`idx_data_points : int32[:]` (training-row indices, non-negative in every
use modelled here), `idx_split_variable : int64`. -/
structure Node where
  index : Int
  value : ℚ
  idx_data_points : List Nat
  idx_split_variable : Int
  deriving DecidableEq

/-- `Node.__init__`: `index = -1`, `value = 0.0`, empty `idx_data_points`,
`idx_split_variable = -1`. -/
def Node.new : Node :=
  { index := -1, value := 0, idx_data_points := [], idx_split_variable := -1 }

/-- `Node.new_leaf_node`: overwrites every field of `self` and returns it. -/
def Node.new_leaf_node (self : Node) (index : Int) (value : ℚ)
    (idx_data_points : List Nat) : Node :=
  { self with
    index := index, value := value, idx_data_points := idx_data_points,
    idx_split_variable := -1 }

/-- `Node.new_split_node`: overwrites every field of `self` and returns it. -/
def Node.new_split_node (self : Node) (index : Int) (split_value : ℚ)
    (idx_split_variable : Int) : Node :=
  { self with
    index := index, value := split_value, idx_data_points := [],
    idx_split_variable := idx_split_variable }

/-- `(self.index - 1) // 2` — Python `//` is floor division (`Int.fdiv`). -/
def Node.get_idx_parent_node (self : Node) : Int :=
  (self.index - 1).fdiv 2

/-- `self.index * 2 + 1`. -/
def Node.get_idx_left_child (self : Node) : Int :=
  self.index * 2 + 1

/-- `self.get_idx_left_child() + 1`. -/
def Node.get_idx_right_child (self : Node) : Int :=
  self.get_idx_left_child + 1

/-- `self.idx_split_variable >= 0`. -/
def Node.is_split_node (self : Node) : Bool :=
  decide (0 ≤ self.idx_split_variable)

/-- `not self.is_split_node()`. -/
def Node.is_leaf_node (self : Node) : Bool :=
  ! self.is_split_node

/-- Association list standing for the `dict` field `tree_structure`. -/
abbrev TreeDict := List (Int × Node)

/-- `d[i]` on a Python dict with unique keys: the first (hence only)
binding of `i`, `none` for `KeyError`. -/
def dlookup : TreeDict → Int → Option Node
  | [], _ => none
  | kv :: rest, i => if i = kv.1 then some kv.2 else dlookup rest i

/-- `d[k] = v` on a Python dict: replaces the value in place for an
existing key, appends a new binding otherwise. -/
def dinsert : TreeDict → Int → Node → TreeDict
  | [], k, v => [(k, v)]
  | kv :: rest, k, v => if k = kv.1 then (kv.1, v) :: rest else kv :: dinsert rest k v

/-- `del d[k]`. -/
def ddelete : TreeDict → Int → TreeDict
  | [], _ => []
  | kv :: rest, k => if k = kv.1 then rest else kv :: ddelete rest k

/-- `d.keys()` in iteration order. -/
def dkeys (d : TreeDict) : List Int := d.map Prod.fst

/-- `np.append(xs, x)` builds and returns a fresh array; the argument is
never mutated. -/
def npAppendI (xs : List Int) (x : Int) : List Int := xs ++ [x]

/-- `np.append(xs, x)` for a float collection. -/
def npAppendQ (xs : List ℚ) (x : ℚ) : List ℚ := xs ++ [x]

/-- `np.mean(xs, 0)`: the arithmetic mean; on an empty collection numpy
produces NaN, modelled as `none`. -/
def npMean0 (xs : List ℚ) : Option ℚ :=
  if xs = [] then none else some (xs.sum / (xs.length : ℚ))

/-- `Tree` of `tree.py`: `tree_structure : DictType(int64, Node)`,
`idx_leaf_nodes : int64[:]`, `output : float64[:, :]` (rows × columns),
`leaf_node_value : float64`. -/
structure Tree where
  tree_structure : TreeDict
  idx_leaf_nodes : List Int
  output : List (List ℚ)
  leaf_node_value : ℚ
  deriving DecidableEq

/-- `Tree.__init__(leaf_node_value, idx_data_points, output)`:
a single leaf at index 0 owning `idx_data_points`;
`idx_leaf_nodes = np.zeros(1, int64)`, i.e. the one-element array `[0]`. -/
def Tree.init (leaf_node_value : ℚ) (idx_data_points : List Nat)
    (output : List (List ℚ)) : Tree :=
  { tree_structure := [(0, Node.new.new_leaf_node 0 leaf_node_value idx_data_points)],
    idx_leaf_nodes := [0],
    output := output,
    leaf_node_value := leaf_node_value }

/-- `Tree.get_node` = `self.tree_structure[index]`; `none` is `KeyError`. -/
def Tree.get_node (self : Tree) (index : Int) : Option Node :=
  dlookup self.tree_structure index

/-- `Tree.set_node`: stores the node; if it is a leaf, the source executes
`np.append(self.idx_leaf_nodes, index)` whose freshly built result is
discarded, so `idx_leaf_nodes` is left unchanged. -/
def Tree.set_node (self : Tree) (index : Int) (node : Node) : Tree :=
  let ts := dinsert self.tree_structure index node
  if node.is_leaf_node then
    let _discarded := npAppendI self.idx_leaf_nodes index
    { self with tree_structure := ts }
  else
    { self with tree_structure := ts }

/-- `self.idx_leaf_nodes.remove(index)`: `idx_leaf_nodes` is a numpy
array (`int64[:]`, created by `np.zeros`), and `numpy.ndarray` has no
`remove` method, so the call raises `AttributeError` unconditionally. -/
def ndarrayRemove (xs : List Int) (x : Int) : Option (List Int) :=
  none

/-- `Tree.delete_leaf_node`: its first statement raises (see
`ndarrayRemove`), so the deletion of the dict entry is never reached. -/
def Tree.delete_leaf_node (self : Tree) (index : Int) : Option Tree :=
  (ndarrayRemove self.idx_leaf_nodes index).map fun l =>
    { self with
      idx_leaf_nodes := l,
      tree_structure := ddelete self.tree_structure index }

/-- The loop body of `Tree.copy`: a fresh `Node()` whose four fields are
assigned from `v` (`idx_data_points` via `.copy()`, which on the value
level is the identity). -/
def Node.copyFields (v : Node) : Node :=
  { index := v.index, value := v.value, idx_data_points := v.idx_data_points,
    idx_split_variable := v.idx_split_variable }

/-- `Tree.copy`: builds `Tree(self.leaf_node_value,
self.tree_structure[0].idx_data_points, self.output.copy())` — `none` when
index 0 is absent (`KeyError`) — then re-inserts a field-copy of every
node through `tree[k] = node` (`set_node`) in iteration order. -/
def Tree.copy (self : Tree) : Option Tree :=
  (dlookup self.tree_structure 0).map fun root =>
    self.tree_structure.foldl (fun acc kv => acc.set_node kv.1 kv.2.copyFields)
      (Tree.init self.leaf_node_value root.idx_data_points self.output)

/-- The per-node effect of `Tree.trim`'s loop: `del current_node.idx_data_points`
on every leaf.  Attribute deletion is modelled by clearing the field; no
operation of a trimmed tree reads it afterwards. -/
def stripLeaf (n : Node) : Node :=
  if n.is_leaf_node then { n with idx_data_points := [] } else n

/-- `Tree.trim`: a copy with `output` and `idx_leaf_nodes` deleted
(modelled by clearing, nothing reads them on the trimmed tree) and every
leaf's `idx_data_points` deleted. -/
def Tree.trim (self : Tree) : Option Tree :=
  self.copy.map fun a =>
    { a with
      output := [],
      idx_leaf_nodes := [],
      tree_structure := a.tree_structure.map fun kv => (kv.1, stripLeaf kv.2) }

/-- `output[idx_data_points] = value`: numpy fancy-index assignment, the
scalar broadcast across each selected row; an out-of-range row index
raises `IndexError` (`none`). -/
def npSetRows : List (List ℚ) → List Nat → ℚ → Option (List (List ℚ))
  | out, [], _ => some out
  | out, i :: is, v =>
    match out.get? i with
    | none => none
    | some row => npSetRows (out.set i (List.replicate row.length v)) is v

/-- The loop of `Tree._predict` over `idx_leaf_nodes`: looks each index up
(`KeyError` = `none`) and scatter-writes its `value` over its
`idx_data_points` rows of the buffer. -/
def Tree.predictBatchGo (self : Tree) : List Int → List (List ℚ) → Option (List (List ℚ))
  | [], out => some out
  | i :: rest, out =>
    match self.get_node i with
    | none => none
    | some node =>
      match npSetRows out node.idx_data_points node.value with
      | none => none
      | some out2 => self.predictBatchGo rest out2

/-- `Tree._predict` (the spec's `predict_batch`): scatter-writes every
index of `idx_leaf_nodes` into the output buffer and returns the
transpose.  The in-place buffer update is modelled functionally: the
returned value is what the source returns. -/
def Tree._predict (self : Tree) : Option (List (List ℚ)) :=
  (self.predictBatchGo self.idx_leaf_nodes self.output).map List.transpose

/-- `Tree._traverse_leaf_values`, fuel-indexed.  The mutable list argument
is threaded through; at a leaf the source executes
`np.append(leaf_values, node.value)` and discards the fresh result, so the
threaded list is returned unchanged. -/
def Tree.traverseLeafValuesF (self : Tree) : Nat → List ℚ → Int → Option (List ℚ)
  | 0, _, _ => none
  | fuel + 1, leaf_values, node_index =>
    match self.get_node node_index with
    | none => none
    | some node =>
      if node.is_leaf_node then
        let _discarded := npAppendQ leaf_values node.value
        some leaf_values
      else
        match self.traverseLeafValuesF fuel leaf_values node.get_idx_left_child with
        | none => none
        | some l1 => self.traverseLeafValuesF fuel l1 node.get_idx_right_child

/-- `Tree._traverse_tree`, fuel-indexed.  The inner `Option ℚ` is the
returned float (`none` = NaN); the outer `none` is a raised exception
(missing node, out-of-range feature index) or exhausted fuel. -/
def Tree.traverseTreeF (self : Tree) : Nat → List ℚ → Int → List Int → Option (Option ℚ)
  | 0, _, _, _ => none
  | fuel + 1, x, node_index, excluded =>
    match self.get_node node_index with
    | none => none
    | some node =>
      if node.is_leaf_node then
        some (some node.value)
      else if node.idx_split_variable ∈ excluded then
        match self.traverseLeafValuesF (fuel + 1) [] node_index with
        | none => none
        | some leaf_values => some (npMean0 leaf_values)
      else
        match x.get? node.idx_split_variable.toNat with
        | none => none
        | some xi =>
          if xi ≤ node.value then
            self.traverseTreeF fuel x node.get_idx_left_child excluded
          else
            self.traverseTreeF fuel x node.get_idx_right_child excluded

/-- `Tree.predict(x, excluded=None)`: a missing / `None` exclusion list is
replaced by the empty list, then `_traverse_tree(x, 0, excluded)`. -/
def Tree.predict (self : Tree) (fuel : Nat) (x : List ℚ)
    (excluded : Option (List Int)) : Option (Option ℚ) :=
  let excl : List Int :=
    match excluded with
    | none => []
    | some e => e
  self.traverseTreeF fuel x 0 excl

/-- Scenario 2 of the spec, built through the code's own operations:
a fresh tree over rows {0, 1, 2} with a 3 × 1 zero output buffer, whose
root is grown into a split on variable 0 at threshold 0.5 with left leaf
value 1.0 (rows {0, 1}) and right leaf value 9.0 (row {2}). -/
def scenario2 : Tree :=
  (((Tree.init 5 [0, 1, 2] [[0], [0], [0]]).set_node 0
      (Node.new.new_split_node 0 (mkRat 1 2) 0)).set_node 1
      (Node.new.new_leaf_node 1 1 [0, 1])).set_node 2
      (Node.new.new_leaf_node 2 9 [2])

/-- The Scenario-2 tree state whose `idx_leaf_nodes` satisfies the spec's
invariant 2 (exactly the leaf indices), as `__setstate__` can produce. -/
def scenario2Inv : Tree :=
  { scenario2 with idx_leaf_nodes := [1, 2] }

/-- The tree `scenario2.trim()` returns (it succeeds, see the C8 witness). -/
def scenario2trim : Tree :=
  scenario2.trim.getD (Tree.init 0 [] [])

/-- A tree stored per the array numbering scheme: every node's stored
`index` equals its dict key and keys are non-negative.  This is what the
spec's "full binary tree rooted at index 0 in array numbering" gives and
what the termination argument needs. -/
def Tree.wellIndexed (t : Tree) : Prop :=
  ∀ kv ∈ t.tree_structure, kv.2.index = kv.1 ∧ 0 ≤ kv.1

instance (t : Tree) : Decidable t.wellIndexed :=
  List.decidableBAll _ t.tree_structure

/-- The largest dict key (as a natural number); every traversal index
beyond it misses the dict. -/
def maxKeyN (d : TreeDict) : Nat :=
  d.foldr (fun kv m => max kv.1.toNat m) 0

/-! ### Association-list (dict) lemmas -/

theorem dlookup_dinsert (d : TreeDict) (k : Int) (v : Node) (i : Int) :
    dlookup (dinsert d k v) i = if i = k then some v else dlookup d i := by
  induction d with
  | nil => simp [dinsert, dlookup]
  | cons kv rest ih =>
    by_cases hk : k = kv.1
    · subst hk
      by_cases hi : i = kv.1 <;> simp [dinsert, dlookup, hi]
    · by_cases hi : i = kv.1
      · subst hi
        simp [dinsert, dlookup, Ne.symm hk, hk]
      · simp [dinsert, dlookup, hk, hi, ih]

theorem dlookup_append_some (a b : TreeDict) (i : Int) (v : Node)
    (h : dlookup a i = some v) : dlookup (a ++ b) i = some v := by
  induction a with
  | nil => simp [dlookup] at h
  | cons kv rest ih =>
    by_cases hi : i = kv.1 <;> simp_all [dlookup]

theorem dlookup_append_none (a b : TreeDict) (i : Int)
    (h : dlookup a i = none) : dlookup (a ++ b) i = dlookup b i := by
  induction a with
  | nil => simp [dlookup]
  | cons kv rest ih =>
    by_cases hi : i = kv.1 <;> simp_all [dlookup]

theorem dlookup_eq_none_of_not_mem (d : TreeDict) (i : Int)
    (h : i ∉ dkeys d) : dlookup d i = none := by
  induction d with
  | nil => rfl
  | cons kv rest ih =>
    simp only [dkeys, List.map_cons, List.mem_cons] at h
    push_neg at h
    simp [dlookup, h.1, ih (by simpa [dkeys] using h.2)]

theorem mem_of_dlookup (d : TreeDict) (i : Int) (v : Node)
    (h : dlookup d i = some v) : (i, v) ∈ d := by
  induction d with
  | nil => simp [dlookup] at h
  | cons kv rest ih =>
    by_cases hi : i = kv.1
    · simp only [dlookup, hi, if_true] at h
      subst hi
      cases h
      exact List.mem_cons_self _ _
    · simp only [dlookup, hi, if_false] at h
      exact List.mem_cons_of_mem _ (ih h)

theorem mem_dkeys_of_dlookup (d : TreeDict) (i : Int) (v : Node)
    (h : dlookup d i = some v) : i ∈ dkeys d :=
  List.mem_map_of_mem Prod.fst (mem_of_dlookup d i v h)

theorem dlookup_reverse (d : TreeDict) (hnd : (dkeys d).Nodup) (i : Int) :
    dlookup d.reverse i = dlookup d i := by
  induction d with
  | nil => rfl
  | cons kv rest ih =>
    simp only [dkeys, List.map_cons, List.nodup_cons] at hnd
    by_cases hi : i = kv.1
    · subst hi
      have hnone : dlookup rest.reverse kv.1 = none := by
        apply dlookup_eq_none_of_not_mem
        simpa [dkeys, List.mem_reverse] using hnd.1
      rw [List.reverse_cons, dlookup_append_none _ _ _ hnone]
      simp [dlookup]
    · rw [List.reverse_cons]
      cases hrest : dlookup rest.reverse i with
      | none =>
        rw [dlookup_append_none _ _ _ hrest]
        have := ih (by simpa [dkeys] using hnd.2)
        simp [dlookup, hi, ← this, hrest]
      | some v =>
        rw [dlookup_append_some _ _ _ _ hrest]
        have := ih (by simpa [dkeys] using hnd.2)
        simp [dlookup, hi, ← this, hrest]

/-! ### `set_node`, `copy`, `trim`: structural lemmas -/

theorem set_node_eq (t : Tree) (k : Int) (v : Node) :
    t.set_node k v = { t with tree_structure := dinsert t.tree_structure k v } := by
  unfold Tree.set_node
  split <;> rfl

theorem copyFields_eq (v : Node) : v.copyFields = v := rfl

theorem foldl_set_node_lookup (items : List (Int × Node)) (acc : Tree) (i : Int) :
    dlookup (items.foldl (fun a kv => a.set_node kv.1 kv.2.copyFields) acc).tree_structure i =
      match dlookup items.reverse i with
      | some v => some v
      | none => dlookup acc.tree_structure i := by
  induction items generalizing acc with
  | nil => simp [dlookup]
  | cons kv rest ih =>
    rw [List.foldl_cons, ih, List.reverse_cons]
    cases hrest : dlookup rest.reverse i with
    | some v => rw [dlookup_append_some _ _ _ _ hrest]
    | none =>
      rw [dlookup_append_none _ _ _ hrest, set_node_eq, copyFields_eq]
      by_cases hi : i = kv.1 <;> simp [dlookup, dlookup_dinsert, hi]

theorem foldl_set_node_fields (items : List (Int × Node)) (acc : Tree) :
    (items.foldl (fun a kv => a.set_node kv.1 kv.2.copyFields) acc).idx_leaf_nodes =
        acc.idx_leaf_nodes ∧
      (items.foldl (fun a kv => a.set_node kv.1 kv.2.copyFields) acc).output = acc.output ∧
      (items.foldl (fun a kv => a.set_node kv.1 kv.2.copyFields) acc).leaf_node_value =
        acc.leaf_node_value := by
  induction items generalizing acc with
  | nil => exact ⟨rfl, rfl, rfl⟩
  | cons kv rest ih =>
    rw [List.foldl_cons]
    obtain ⟨h1, h2, h3⟩ := ih (acc.set_node kv.1 kv.2.copyFields)
    exact ⟨by rw [h1, set_node_eq], by rw [h2, set_node_eq], by rw [h3, set_node_eq]⟩

theorem copy_lookup (t t' : Tree) (h : t.copy = some t')
    (hnd : (dkeys t.tree_structure).Nodup) :
    (∀ i, dlookup t'.tree_structure i = dlookup t.tree_structure i) ∧
      t'.idx_leaf_nodes = [0] ∧ t'.output = t.output ∧
      t'.leaf_node_value = t.leaf_node_value := by
  unfold Tree.copy at h
  rw [Option.map_eq_some'] at h
  obtain ⟨root, hroot, hf⟩ := h
  subst hf
  refine ⟨fun i => ?_, foldl_set_node_fields t.tree_structure _⟩
  rw [foldl_set_node_lookup, dlookup_reverse _ hnd]
  cases hl : dlookup t.tree_structure i with
  | some v => rfl
  | none =>
    have hi0 : i ≠ 0 := by
      intro hi
      rw [hi, hroot] at hl
      exact Option.noConfusion hl
    simp [Tree.init, dlookup, hi0]

theorem dlookup_map_strip (d : TreeDict) (i : Int) :
    dlookup (d.map fun kv => (kv.1, stripLeaf kv.2)) i = (dlookup d i).map stripLeaf := by
  induction d with
  | nil => rfl
  | cons kv rest ih =>
    by_cases hi : i = kv.1 <;> simp [dlookup, hi, ih]

theorem trim_lookup (t t' : Tree) (h : t.trim = some t')
    (hnd : (dkeys t.tree_structure).Nodup) :
    ∀ i, dlookup t'.tree_structure i = (dlookup t.tree_structure i).map stripLeaf := by
  unfold Tree.trim at h
  rw [Option.map_eq_some'] at h
  obtain ⟨a, hc, hf⟩ := h
  obtain ⟨hlook, _, _, _⟩ := copy_lookup t a hc hnd
  intro i
  have ht' : t'.tree_structure = a.tree_structure.map fun kv => (kv.1, stripLeaf kv.2) := by
    rw [← hf]
  rw [ht', dlookup_map_strip, hlook]

/-! ### `stripLeaf` preserves everything the traversal reads -/

theorem stripLeaf_is_split (n : Node) : (stripLeaf n).is_split_node = n.is_split_node := by
  unfold stripLeaf
  split <;> rfl

theorem stripLeaf_is_leaf (n : Node) : (stripLeaf n).is_leaf_node = n.is_leaf_node := by
  unfold stripLeaf
  split <;> rfl

theorem stripLeaf_value (n : Node) : (stripLeaf n).value = n.value := by
  unfold stripLeaf
  split <;> rfl

theorem stripLeaf_split_variable (n : Node) :
    (stripLeaf n).idx_split_variable = n.idx_split_variable := by
  unfold stripLeaf
  split <;> rfl

theorem stripLeaf_left_child (n : Node) :
    (stripLeaf n).get_idx_left_child = n.get_idx_left_child := by
  unfold stripLeaf
  split <;> rfl

theorem stripLeaf_right_child (n : Node) :
    (stripLeaf n).get_idx_right_child = n.get_idx_right_child := by
  unfold stripLeaf
  split <;> rfl

/-! ### Traversal reads only what `stripLeaf` preserves -/

theorem traverseLeafValuesF_congr (t₁ t₂ : Tree)
    (H : ∀ i, t₂.get_node i = (t₁.get_node i).map stripLeaf) :
    ∀ (fuel : Nat) (lv : List ℚ) (idx : Int),
      t₂.traverseLeafValuesF fuel lv idx = t₁.traverseLeafValuesF fuel lv idx := by
  intro fuel
  induction fuel with
  | zero => intro lv idx; rfl
  | succ n ih =>
    intro lv idx
    cases h1 : t₁.get_node idx with
    | none =>
      have h2 : t₂.get_node idx = none := by rw [H idx, h1]; rfl
      simp only [Tree.traverseLeafValuesF, h1, h2]
    | some node =>
      have h2 : t₂.get_node idx = some (stripLeaf node) := by rw [H idx, h1]; rfl
      simp only [Tree.traverseLeafValuesF, h1, h2]
      rw [stripLeaf_is_leaf, stripLeaf_left_child, stripLeaf_right_child]
      by_cases hleaf : node.is_leaf_node = true
      · rw [if_pos hleaf, if_pos hleaf]
      · rw [if_neg hleaf, if_neg hleaf, ih lv node.get_idx_left_child]
        cases t₁.traverseLeafValuesF n lv node.get_idx_left_child with
        | none => rfl
        | some l1 => exact ih l1 node.get_idx_right_child

theorem traverseTreeF_congr (t₁ t₂ : Tree)
    (H : ∀ i, t₂.get_node i = (t₁.get_node i).map stripLeaf) :
    ∀ (fuel : Nat) (x : List ℚ) (idx : Int) (excl : List Int),
      t₂.traverseTreeF fuel x idx excl = t₁.traverseTreeF fuel x idx excl := by
  intro fuel
  induction fuel with
  | zero => intro x idx excl; rfl
  | succ n ih =>
    intro x idx excl
    cases h1 : t₁.get_node idx with
    | none =>
      have h2 : t₂.get_node idx = none := by rw [H idx, h1]; rfl
      simp only [Tree.traverseTreeF, h1, h2]
    | some node =>
      have h2 : t₂.get_node idx = some (stripLeaf node) := by rw [H idx, h1]; rfl
      simp only [Tree.traverseTreeF, h1, h2]
      rw [stripLeaf_is_leaf, stripLeaf_value, stripLeaf_split_variable,
        stripLeaf_left_child, stripLeaf_right_child]
      by_cases hleaf : node.is_leaf_node = true
      · rw [if_pos hleaf, if_pos hleaf]
      · rw [if_neg hleaf, if_neg hleaf]
        by_cases hex : node.idx_split_variable ∈ excl
        · rw [if_pos hex, if_pos hex,
            traverseLeafValuesF_congr t₁ t₂ H (n + 1) [] idx]
        · rw [if_neg hex, if_neg hex]
          cases x.get? node.idx_split_variable.toNat with
          | none => rfl
          | some xi =>
            show (if xi ≤ node.value then t₂.traverseTreeF n x node.get_idx_left_child excl
                else t₂.traverseTreeF n x node.get_idx_right_child excl) =
              (if xi ≤ node.value then t₁.traverseTreeF n x node.get_idx_left_child excl
                else t₁.traverseTreeF n x node.get_idx_right_child excl)
            by_cases hcmp : xi ≤ node.value
            · rw [if_pos hcmp, if_pos hcmp]
              exact ih x node.get_idx_left_child excl
            · rw [if_neg hcmp, if_neg hcmp]
              exact ih x node.get_idx_right_child excl

/-! ### Fuel bounds: every traversal step strictly increases the index -/

theorem le_maxKeyN_of_mem (d : TreeDict) (i : Int) (h : i ∈ dkeys d) :
    i.toNat ≤ maxKeyN d := by
  induction d with
  | nil => simp [dkeys] at h
  | cons kv rest ih =>
    simp only [dkeys, List.map_cons, List.mem_cons] at h
    rcases h with h | h
    · rw [h]
      show kv.1.toNat ≤ max kv.1.toNat (maxKeyN rest)
      exact le_max_left _ _
    · exact le_trans (ih h)
        (show maxKeyN rest ≤ max kv.1.toNat (maxKeyN rest) from le_max_right _ _)

theorem dlookup_none_of_maxKey_lt (d : TreeDict) (i : Int)
    (h : maxKeyN d < i.toNat) : dlookup d i = none := by
  cases hl : dlookup d i with
  | none => rfl
  | some v =>
    exfalso
    have := le_maxKeyN_of_mem d i (mem_dkeys_of_dlookup d i v hl)
    omega

theorem traverseLeafValuesF_none_of_big (t : Tree) (i : Int)
    (h : maxKeyN t.tree_structure < i.toNat) :
    ∀ (fuel : Nat) (lv : List ℚ), t.traverseLeafValuesF fuel lv i = none := by
  intro fuel lv
  cases fuel with
  | zero => rfl
  | succ n =>
    simp only [Tree.traverseLeafValuesF, Tree.get_node,
      dlookup_none_of_maxKey_lt _ _ h]

theorem traverseTreeF_none_of_big (t : Tree) (i : Int)
    (h : maxKeyN t.tree_structure < i.toNat) :
    ∀ (fuel : Nat) (x : List ℚ) (excl : List Int), t.traverseTreeF fuel x i excl = none := by
  intro fuel x excl
  cases fuel with
  | zero => rfl
  | succ n =>
    simp only [Tree.traverseTreeF, Tree.get_node,
      dlookup_none_of_maxKey_lt _ _ h]

theorem traverseLeafValuesF_stable (t : Tree) (hw : t.wellIndexed) :
    ∀ (fuel₁ fuel₂ : Nat) (lv : List ℚ) (i : Int),
      maxKeyN t.tree_structure < fuel₁ + i.toNat →
      maxKeyN t.tree_structure < fuel₂ + i.toNat →
      t.traverseLeafValuesF fuel₁ lv i = t.traverseLeafValuesF fuel₂ lv i := by
  intro fuel₁
  induction fuel₁ with
  | zero =>
    intro fuel₂ lv i h1 h2
    rw [show t.traverseLeafValuesF 0 lv i = none from rfl,
      traverseLeafValuesF_none_of_big t i (by omega) fuel₂ lv]
  | succ n ih =>
    intro fuel₂ lv i h1 h2
    by_cases hbig : maxKeyN t.tree_structure < i.toNat
    · rw [traverseLeafValuesF_none_of_big t i hbig,
        traverseLeafValuesF_none_of_big t i hbig]
    · cases fuel₂ with
      | zero => exact absurd h2 (by omega)
      | succ m =>
        cases hn : t.get_node i with
        | none => simp only [Tree.traverseLeafValuesF, hn]
        | some node =>
          obtain ⟨hidx, hpos⟩ := hw _ (mem_of_dlookup _ _ _ hn)
          have hidx2 : node.index = i := hidx
          have hpos2 : (0 : Int) ≤ i := hpos
          simp only [Tree.traverseLeafValuesF, hn]
          by_cases hleaf : node.is_leaf_node = true
          · rw [if_pos hleaf, if_pos hleaf]
          · rw [if_neg hleaf, if_neg hleaf]
            have hL : node.get_idx_left_child = i * 2 + 1 := by
              rw [Node.get_idx_left_child, hidx2]
            have hR : node.get_idx_right_child = i * 2 + 2 := by
              rw [Node.get_idx_right_child, Node.get_idx_left_child, hidx2]
              omega
            rw [hL, hR, ih m lv (i * 2 + 1) (by omega) (by omega)]
            cases t.traverseLeafValuesF m lv (i * 2 + 1) with
            | none => rfl
            | some l1 => exact ih m l1 (i * 2 + 2) (by omega) (by omega)

theorem traverseTreeF_stable (t : Tree) (hw : t.wellIndexed) :
    ∀ (fuel₁ fuel₂ : Nat) (x : List ℚ) (i : Int) (excl : List Int),
      maxKeyN t.tree_structure < fuel₁ + i.toNat →
      maxKeyN t.tree_structure < fuel₂ + i.toNat →
      t.traverseTreeF fuel₁ x i excl = t.traverseTreeF fuel₂ x i excl := by
  intro fuel₁
  induction fuel₁ with
  | zero =>
    intro fuel₂ x i excl h1 h2
    rw [show t.traverseTreeF 0 x i excl = none from rfl,
      traverseTreeF_none_of_big t i (by omega) fuel₂ x excl]
  | succ n ih =>
    intro fuel₂ x i excl h1 h2
    by_cases hbig : maxKeyN t.tree_structure < i.toNat
    · rw [traverseTreeF_none_of_big t i hbig, traverseTreeF_none_of_big t i hbig]
    · cases fuel₂ with
      | zero => exact absurd h2 (by omega)
      | succ m =>
        cases hn : t.get_node i with
        | none => simp only [Tree.traverseTreeF, hn]
        | some node =>
          obtain ⟨hidx, hpos⟩ := hw _ (mem_of_dlookup _ _ _ hn)
          have hidx2 : node.index = i := hidx
          have hpos2 : (0 : Int) ≤ i := hpos
          simp only [Tree.traverseTreeF, hn]
          by_cases hleaf : node.is_leaf_node = true
          · rw [if_pos hleaf, if_pos hleaf]
          · rw [if_neg hleaf, if_neg hleaf]
            by_cases hex : node.idx_split_variable ∈ excl
            · rw [if_pos hex, if_pos hex,
                traverseLeafValuesF_stable t hw (n + 1) (m + 1) [] i (by omega) (by omega)]
            · rw [if_neg hex, if_neg hex]
              cases x.get? node.idx_split_variable.toNat with
              | none => rfl
              | some xi =>
                show (if xi ≤ node.value then t.traverseTreeF n x node.get_idx_left_child excl
                    else t.traverseTreeF n x node.get_idx_right_child excl) =
                  (if xi ≤ node.value then t.traverseTreeF m x node.get_idx_left_child excl
                    else t.traverseTreeF m x node.get_idx_right_child excl)
                have hL : node.get_idx_left_child = i * 2 + 1 := by
                  rw [Node.get_idx_left_child, hidx2]
                have hR : node.get_idx_right_child = i * 2 + 2 := by
                  rw [Node.get_idx_right_child, Node.get_idx_left_child, hidx2]
                  omega
                rw [hL, hR]
                by_cases hcmp : xi ≤ node.value
                · rw [if_pos hcmp, if_pos hcmp]
                  exact ih m x (i * 2 + 1) excl (by omega) (by omega)
                · rw [if_neg hcmp, if_neg hcmp]
                  exact ih m x (i * 2 + 2) excl (by omega) (by omega)

/-! ### The claims -/

/-- Claim C1.  The claim says `predict([0.1], [0])` on the Scenario-2 tree
returns the unweighted mean 5.0 of the leaf values.  In the code,
`_traverse_leaf_values` executes `np.append(leaf_values, node.value)` and
discards the result, so the collected list stays empty and
`np.mean([], 0)` is NaN (modelled `some none`), not 5.0. -/
theorem C1_predict_excluded_returns_nan :
    scenario2.predict 10 [mkRat 1 10] (some [0]) = some none := by
  decide

/-- Claim C2.  The claim says `idx_leaf_nodes` is exactly the set of leaf
indices after every mutation.  On the Scenario-2 tree built through
`set_node`, `idx_leaf_nodes` is still `[0]`, yet the node at 0 is a Split
and the nodes at 1 and 2 are Leaves: `np.append`'s result is discarded,
so leaf insertion registers nothing and the split overwrite removes
nothing. -/
theorem C2_leaf_index_bookkeeping_broken :
    scenario2.idx_leaf_nodes = [0] ∧
      (scenario2.get_node 0).map Node.is_split_node = some true ∧
      (scenario2.get_node 1).map Node.is_leaf_node = some true ∧
      (scenario2.get_node 2).map Node.is_leaf_node = some true := by
  decide

/-- Claim C3.  The claim says `predict_batch` on the grown Scenario-2 tree
returns `[1.0, 1.0, 9.0]`.  Because `set_node` never updates
`idx_leaf_nodes` (C2), `_predict` visits only index 0 — now a Split with
no data points — writes nothing, and returns the transposed untouched
zero buffer `[[0, 0, 0]]`. -/
theorem C3_predict_batch_scenario2_value :
    scenario2._predict = some [[0, 0, 0]] := by
  decide

/-- Claim C4.  The claim says `delete_leaf_node(index)` removes `index`
from `idx_leaf_nodes` and from the node map.  `idx_leaf_nodes` is a numpy
array and has no `remove` method, so every call raises `AttributeError`
and removes nothing: the operation fails on every tree and index. -/
theorem C4_delete_leaf_node_raises (t : Tree) (index : Int) :
    t.delete_leaf_node index = none := rfl

/-- Claim C5, counterexample.  `parent_index` on the root does not return
0: `(0 - 1) // 2` is Python floor division, which yields -1. -/
theorem C5_parent_of_root_counterexample :
    (Node.new.new_leaf_node 0 5 [0, 1, 2]).get_idx_parent_node = -1 ∧
      (Node.new.new_leaf_node 0 5 [0, 1, 2]).get_idx_parent_node ≠ 0 := by
  decide

/-- Claim C5, amended.  Calling `parent_index` on the root node (index 0)
returns -1 — a non-existent index the caller must treat as "no parent" —
not 0. -/
theorem C5_parent_of_root_amended (n : Node) (h : n.index = 0) :
    n.get_idx_parent_node = -1 := by
  rw [Node.get_idx_parent_node, h]
  rfl

/-- Claim C5, witness for the amended theorem at a concrete root node. -/
theorem C5_parent_of_root_witness :
    (Node.new.new_leaf_node 0 5 [0, 1, 2]).index = 0 ∧
      (Node.new.new_leaf_node 0 5 [0, 1, 2]).get_idx_parent_node = -1 :=
  ⟨rfl, C5_parent_of_root_amended _ rfl⟩

/-- Claim C7.  The claim says `T.copy().predict_batch()` equals
`T.predict_batch()` for every tree.  On the Scenario-2 tree state whose
`idx_leaf_nodes` is `[1, 2]` (the spec's invariant 2), the original
returns `[[1, 1, 9]]` but the copy returns `[[0, 0, 0]]`: `copy`
rebuilds `idx_leaf_nodes` as `np.zeros(1)` and `set_node` never
re-registers the leaves. -/
theorem C7_copy_predict_batch_differs :
    scenario2Inv._predict = some [[1, 1, 9]] ∧
      scenario2Inv.copy.map Tree._predict = some (some [[0, 0, 0]]) := by
  decide

/-- Claim C8.  For every tree `t` (a valid dict: unique keys) that `trim`
succeeds on, prediction on the trimmed tree equals prediction on `t` for
every input point, exclusion list and fuel: trimming drops the output
buffer, the leaf bookkeeping and the leaf row memberships, none of which
the traversal reads, and preserves every threshold, split variable and
leaf value. -/
theorem C8_trim_preserves_predict (t t' : Tree) (h : t.trim = some t')
    (hnd : (dkeys t.tree_structure).Nodup) (fuel : Nat) (x : List ℚ)
    (excluded : Option (List Int)) :
    t'.predict fuel x excluded = t.predict fuel x excluded := by
  have H : ∀ i, t'.get_node i = (t.get_node i).map stripLeaf := fun i =>
    trim_lookup t t' h hnd i
  unfold Tree.predict
  exact traverseTreeF_congr t t' H fuel x 0 _

/-- Claim C8, witness: the trimmed Scenario-2 tree predicts exactly as the
original does. -/
theorem C8_trim_preserves_predict_witness :
    scenario2.trim = some scenario2trim ∧
      (dkeys scenario2.tree_structure).Nodup ∧
      scenario2trim.predict 5 [mkRat 1 10] (some [0]) =
        scenario2.predict 5 [mkRat 1 10] (some [0]) :=
  ⟨by decide, by decide,
    C8_trim_preserves_predict scenario2 scenario2trim (by decide) (by decide)
      5 [mkRat 1 10] (some [0])⟩

/-- Claim C9.  For every well-indexed tree (stored indices match the
array-numbering keys, keys non-negative — what a finite full binary tree
rooted at 0 gives), the recursive descent of `predict` terminates: each
step moves to child index `2i+1` or `2i+2`, strictly past the previous
index, so any fuel of at least `maxKeyN + 1` yields the same result as
the fuel `maxKeyN + 1` itself — the recursion has stabilised and cannot
run forever. -/
theorem C9_traversal_fuel_stable (t : Tree) (hw : t.wellIndexed)
    (x : List ℚ) (excluded : Option (List Int)) (fuel : Nat)
    (hfuel : maxKeyN t.tree_structure + 1 ≤ fuel) :
    t.predict fuel x excluded = t.predict (maxKeyN t.tree_structure + 1) x excluded := by
  unfold Tree.predict
  exact traverseTreeF_stable t hw fuel (maxKeyN t.tree_structure + 1) x 0 _
    (by omega) (by omega)

/-- Claim C9, witness at the Scenario-2 tree. -/
theorem C9_traversal_fuel_stable_witness :
    scenario2.wellIndexed ∧ maxKeyN scenario2.tree_structure + 1 ≤ 10 ∧
      scenario2.predict 10 [mkRat 1 10] none =
        scenario2.predict (maxKeyN scenario2.tree_structure + 1) [mkRat 1 10] none :=
  ⟨by decide, by decide,
    C9_traversal_fuel_stable scenario2 (by decide) [mkRat 1 10] none 10 (by decide)⟩

/-- Claim C10.  `predict(x)` with the exclusion argument omitted /
`None` equals `predict(x, [])` with an explicitly empty exclusion list:
the code replaces a `None` exclusion by `[]` before traversing. -/
theorem C10_predict_default_excluded (t : Tree) (fuel : Nat) (x : List ℚ) :
    t.predict fuel x none = t.predict fuel x (some []) := rfl

end PyMCBart
